import Mathlib

/-!
Shallow embedding of the conformance test generator
(`crates/conformance/src/lib.rs`): the fixture-format parser `read_tests`,
the diagnostic aggregator `tests`, the code generator `build_tests`, and the
run-time behaviour of the emitted tests.

Fixture text is modelled as `List Char`.  Rust byte indices are modelled as
character indices: every pattern searched for is pure ASCII, so match
positions, the `+ 5` offset arithmetic and the induced splits correspond
one-to-one between the two views.
-/

namespace Conformance

/-- Characters with the Unicode `White_Space` property, the set used by
the Rust predicate `char::is_whitespace` (and hence by `str::trim`). -/
def isRustWhitespace (c : Char) : Bool :=
  c.val = 0x9 || c.val = 0xA || c.val = 0xB || c.val = 0xC || c.val = 0xD ||
  c.val = 0x20 || c.val = 0x85 || c.val = 0xA0 || c.val = 0x1680 ||
  (0x2000 ≤ c.val && c.val ≤ 0x200A) ||
  c.val = 0x2028 || c.val = 0x2029 || c.val = 0x202F || c.val = 0x205F ||
  c.val = 0x3000

/-- Model of Rust `str::trim`: drop leading and trailing whitespace. -/
def trimList (s : List Char) : List Char :=
  ((s.dropWhile isRustWhitespace).reverse.dropWhile isRustWhitespace).reverse

/-- Does `pat` occur as a prefix of `s`?  (Helper for substring search.) -/
def leadsWith : List Char → List Char → Bool
  | [], _ => true
  | _ :: _, [] => false
  | p :: ps, c :: cs => p = c && leadsWith ps cs

/-- Does `pat` occur in `s` starting at index `k`? -/
def occursAt (pat s : List Char) (k : Nat) : Bool :=
  leadsWith pat (s.drop k)

/-- Model of Rust `str::find` (for a string pattern): index of the first
occurrence of `pat` in `s`, if any. -/
def findSub (pat : List Char) : List Char → Option Nat
  | [] => if leadsWith pat [] then some 0 else none
  | c :: rest =>
    if leadsWith pat (c :: rest) then some 0
    else (findSub pat rest).map (· + 1)

/-- Model of Rust `str::rfind` (for a string pattern): index of the last
occurrence of `pat` in `s`, if any. -/
def rfindSub (pat : List Char) : List Char → Option Nat
  | [] => if leadsWith pat [] then some 0 else none
  | c :: rest =>
    match rfindSub pat rest with
    | some j => some (j + 1)
    | none => if leadsWith pat (c :: rest) then some 0 else none

/-- The record separator rendered as a standalone line: `"\n...\n"`. -/
def termSep : List Char := ['\n', '.', '.', '.', '\n']

/-- The name separator rendered as a standalone line: `"\n===\n"`. -/
def nameSep : List Char := ['\n', '=', '=', '=', '\n']

/-- The input/output separator rendered as a standalone line: `"\n---\n"`. -/
def ioSep : List Char := ['\n', '-', '-', '-', '\n']

/-- Model of Rust `str::split` with the fixed pattern `"\n...\n"`:
left-to-right, non-overlapping matches; always returns at least one chunk. -/
def splitDotsAux (s : List Char) : List (List Char) :=
  match s with
  | '\n' :: '.' :: '.' :: '.' :: '\n' :: rest => [] :: splitDotsAux rest
  | c :: rest =>
    match splitDotsAux rest with
    | [] => [[c]]
    | r :: rs => (c :: r) :: rs
  | [] => [[]]

/-- Model of Rust `str::split_terminator("\n...\n")`: like `split`, but a
trailing empty chunk (arising when the text ends with the separator) is
dropped. -/
def splitTerminatorDots (s : List Char) : List (List Char) :=
  let parts := splitDotsAux s
  if parts.getLast? = some [] then parts.dropLast else parts

/-- One parsed fixture record (`struct Test` in the source); `name` already
carries the disambiguating `'_'` prefix. -/
structure Test where
  name : List Char
  input : List Char
  output : List Char
deriving DecidableEq, Repr

/-- The build-time diagnostics the generator can attach (each corresponds to
one `compile_error!` message in the source). -/
inductive Diag where
  /-- Message "file needs to have trailing newline". -/
  | noTrailingNewline
  /-- Message "file has disallowed content after final `...`". -/
  | trailingContent
  /-- Message "test \x7bi\x7d does not have `===` after name". -/
  | noNameSep (i : Nat)
  /-- Message "test `\x7bname\x7d` does not have `---` after input". -/
  | noIoSep (name : List Char)
  /-- Message "`\x7bname\x7d` is not a valid test name identifier". -/
  | invalidIdentifier (name : List Char)
deriving DecidableEq, Repr

/-- Model of `name.trim().replace(' ', "_")` (line 101 of the source). -/
def sanitizeName (raw : List Char) : List Char :=
  (trimList raw).map fun c => if c = ' ' then '_' else c

/-- Is `'_' :: name` accepted by `syn::parse_str::<syn::Ident>`?  A lone
underscore is rejected, and otherwise every further character must be an
identifier-continue character.  Identifier characters are modelled over
ASCII (alphanumeric or underscore), the fragment of the Rust `XID_Continue` class
relevant to the fixture format. -/
def validTestName (name : List Char) : Bool :=
  !name.isEmpty && name.all fun c => c.isAlphanum || c = '_'

/-- The per-record body of the `read_tests` loop (lines 91-131 of the
source): split off the name at the first `"\n===\n"`, sanitize it, split
input from output at the last `"\n---\n"`, trim both, then validate the
prefixed name as an identifier. -/
def parseRecord (i : Nat) (test : List Char) : Except Diag Test :=
  match findSub nameSep test with
  | none => .error (.noNameSep i)
  | some ix =>
    let name := sanitizeName (test.take ix)
    let rest := test.drop (ix + 5)
    match rfindSub ioSep rest with
    | none => .error (.noIoSep name)
    | some jx =>
      let input := trimList (rest.take jx)
      let output := trimList (rest.drop (jx + 5))
      if validTestName name then .ok ⟨'_' :: name, input, output⟩
      else .error (.invalidIdentifier name)

/-- The `read_tests` loop over all chunks, carrying the running record index
`i`: successful records and diagnostics are both accumulated in order, and a
failing record never stops the processing of later ones. -/
def readLoop (i : Nat) : List (List Char) → List Test × List Diag
  | [] => ([], [])
  | c :: cs =>
    let r := readLoop (i + 1) cs
    match parseRecord i c with
    | .ok t => (t :: r.1, r.2)
    | .error e => (r.1, e :: r.2)

/-- Model of `source.rfind("\n...\n").map_or(0, |i| i + 5)`: the split
position after the last record terminator, or `0` when no terminator
occurs. -/
def splitPosOf (source : List Char) : Nat :=
  match rfindSub termSep source with
  | some i => i + 5
  | none => 0

/-- The chunks fed to the per-record loop: the portion of the file up to and
including the last terminator, split by `split_terminator("\n...\n")`. -/
def recordsOf (source : List Char) : List (List Char) :=
  splitTerminatorDots (source.take (splitPosOf source))

/-- Model of `read_tests` (file contents already in hand): require a trailing
newline, require only whitespace after the last `"\n...\n"`, then parse every
record, returning all records when no diagnostic occurred and all
diagnostics (and no records) otherwise. -/
def read_tests (source : List Char) : Except (List Diag) (List Test) :=
  if source.getLast? ≠ some '\n' then .error [.noTrailingNewline]
  else if ¬(trimList (source.drop (splitPosOf source))).isEmpty then
    .error [.trailingContent]
  else
    let r := readLoop 0 (recordsOf source)
    if r.2.isEmpty then .ok r.1 else .error r.2

/-- Model of `.file_stem().to_string_lossy().replace('.', "_")`: every dot of
the base name of the fixture file becomes an underscore. -/
def replaceDotUnderscore (stem : List Char) : List Char :=
  stem.map fun c => if c = '.' then '_' else c

/-- One emitted `#[test]` item: its identifier and the two arguments passed
to the shared helper — the call the generator emits is
`#testing_fn(#output, #input)`. -/
structure GeneratedTest where
  testName : List Char
  expectedArg : List Char
  actualArg : List Char
deriving DecidableEq, Repr

/-- The code emitted by `build_tests` on success: the shared helper named
after the fixture file, and one test item per record. -/
structure Emitted where
  helperName : List Char
  genTests : List GeneratedTest
deriving DecidableEq, Repr

/-- Model of `build_tests` (lines 169-217 of the source), taking the base
name and contents of the fixture file in place of the resolved path: parse the
fixture; on failure return the diagnostics unchanged, on success emit the
helper plus one test per record, named `filename ++ record.name` in record
order. -/
def build_tests (stem source : List Char) : Except (List Diag) Emitted :=
  match read_tests source with
  | .error e => .error e
  | .ok records =>
    let filename := replaceDotUnderscore stem
    .ok ⟨filename, records.map fun t => ⟨filename ++ t.name, t.output, t.input⟩⟩

/-- Model of the attribute entry point `tests` (lines 142-167 of the source).
Token streams are abstracted as lists over `σ`; the three fallible
pre-fixture inputs arrive already evaluated (in the source all three are
computed before the `match`), and the all-success continuation `build`
stands for the call to `build_tests`.  The `match` arms mirror the or-patterns
of the source, expanded: the annotated item is re-emitted first in every case,
followed by every error stream in tuple order `(args, fun, manifest_dir)`. -/
def tests {σ α β γ : Type} (item : List σ)
    (attrArgs : Except (List σ) α) (itemFn : Except (List σ) β)
    (manifestDir : Except (List σ) γ)
    (build : α → β → γ → List σ) : List σ :=
  match attrArgs, itemFn, manifestDir with
  | .ok a, .ok f, .ok m => item ++ build a f m
  | .error a, .error b, .error c => item ++ (a ++ b ++ c)
  | .error a, .error b, .ok _ => item ++ (a ++ b)
  | .error a, .ok _, .error b => item ++ (a ++ b)
  | .ok _, .error a, .error b => item ++ (a ++ b)
  | .error a, .ok _, .ok _ => item ++ a
  | .ok _, .error a, .ok _ => item ++ a
  | .ok _, .ok _, .error a => item ++ a

/-- Run-time outcome of one emitted test: `Ok(())`, an error propagated by
`?` from serialize or deserialize, or the `assert_eq!` failure, which
carries both canonical strings. -/
inductive TestOutcome (E : Type) where
  | success
  | failure (e : E)
  | mismatch (actual expected : List Char)
deriving DecidableEq, Repr

/-- Run-time semantics of the shared helper (lines 192-198 of the source):
serialize the result of the transformation on `actual`, deserialize `expected`
and re-serialize it, propagating any failure; then compare the two canonical
strings. -/
def testingFn {α E : Type} (ser : α → Except E (List Char))
    (de : List Char → Except E α) (tf : List Char → α)
    (expected actual : List Char) : TestOutcome E :=
  match ser (tf actual) with
  | .error e => .failure e
  | .ok actualS =>
    match de expected with
    | .error e => .failure e
    | .ok v =>
      match ser v with
      | .error e => .failure e
      | .ok expectedS =>
        if actualS = expectedS then .success
        else .mismatch actualS expectedS

/-- Run-time semantics of the test emitted for one record: the generated
body is `#testing_fn(#output, #input)`. -/
def runRecordTest {α E : Type} (ser : α → Except E (List Char))
    (de : List Char → Except E α) (tf : List Char → α)
    (t : Test) : TestOutcome E :=
  testingFn ser de tf t.output t.input

/-- The error side of a per-record parse, if any. -/
def diagOf : Except Diag Test → Option Diag
  | .error e => some e
  | .ok _ => none

/-- The success side of a per-record parse, if any. -/
def okOf : Except Diag Test → Option Test
  | .error _ => none
  | .ok t => some t

/-- The token stream contributed by one fallible pre-fixture input: its error
stream if it failed, nothing if it succeeded. -/
def errPart {σ δ : Type} : Except (List σ) δ → List σ
  | .error e => e
  | .ok _ => []

/-- A pattern matching at the front needs at least its own length. -/
theorem leadsWith_length {pat s : List Char} (h : leadsWith pat s = true) :
    pat.length ≤ s.length := by
  induction pat generalizing s with
  | nil => simp
  | cons p ps ih =>
    cases s with
    | nil => simp [leadsWith] at h
    | cons c cs =>
      simp only [leadsWith, Bool.and_eq_true] at h
      simpa using ih h.2

/-- Only the empty pattern matches at the front of the empty list. -/
theorem leadsWith_nil {pat : List Char} (h : leadsWith pat [] = true) : pat = [] := by
  cases pat with
  | nil => rfl
  | cons p ps => simp [leadsWith] at h

/-- Every character of a pattern matching at the front occurs in the text. -/
theorem leadsWith_mem {pat s : List Char} (h : leadsWith pat s = true) :
    ∀ c ∈ pat, c ∈ s := by
  induction pat generalizing s with
  | nil => simp
  | cons p ps ih =>
    cases s with
    | nil => simp [leadsWith] at h
    | cons c cs =>
      simp only [leadsWith, Bool.and_eq_true, decide_eq_true_eq] at h
      intro x hx
      rcases List.mem_cons.mp hx with rfl | hx
      · rw [h.1]; exact List.mem_cons_self c cs
      · exact List.mem_cons_of_mem c (ih h.2 x hx)

/-- Characterization of `findSub`: a returned index is an occurrence, and no
smaller index is one — `find` really is the first occurrence. -/
theorem findSub_eq_some {pat s : List Char} {i : Nat}
    (h : findSub pat s = some i) :
    occursAt pat s i = true ∧ ∀ k, k < i → occursAt pat s k = false := by
  induction s generalizing i with
  | nil =>
    unfold findSub at h
    split at h
    · cases h
      exact ⟨by assumption, by omega⟩
    · cases h
  | cons c cs ih =>
    unfold findSub at h
    split at h
    · cases h
      refine ⟨by simpa [occursAt] using by assumption, by omega⟩
    · rename_i hne
      rcases Option.map_eq_some'.mp h with ⟨j, hj, rfl⟩
      obtain ⟨h1, h2⟩ := ih hj
      refine ⟨by simpa [occursAt] using h1, ?_⟩
      intro k hk
      cases k with
      | zero =>
        simpa [occursAt] using Bool.eq_false_iff.mpr hne
      | succ k =>
        have := h2 k (by omega)
        simpa [occursAt] using this

/-- When `rfindSub` finds nothing, there is no occurrence at any index. -/
theorem rfindSub_eq_none {pat s : List Char} (h : rfindSub pat s = none) :
    ∀ k, occursAt pat s k = false := by
  induction s with
  | nil =>
    intro k
    unfold rfindSub at h
    split at h
    · cases h
    · rename_i hne
      simpa [occursAt, List.drop_nil] using Bool.eq_false_iff.mpr hne
  | cons c cs ih =>
    intro k
    unfold rfindSub at h
    split at h
    · cases h
    · rename_i heq
      split at h
      · cases h
      · rename_i hne
        cases k with
        | zero => simpa [occursAt] using Bool.eq_false_iff.mpr hne
        | succ k => simpa [occursAt] using ih heq k

/-- Characterization of `rfindSub` (for a nonempty pattern): a returned index
is an occurrence, and no larger index is one — `rfind` really is the last
occurrence. -/
theorem rfindSub_eq_some {pat s : List Char} {i : Nat} (hp : pat ≠ [])
    (h : rfindSub pat s = some i) :
    occursAt pat s i = true ∧ ∀ k, i < k → occursAt pat s k = false := by
  induction s generalizing i with
  | nil =>
    unfold rfindSub at h
    split at h
    · exact absurd (leadsWith_nil (by assumption)) hp
    · cases h
  | cons c cs ih =>
    unfold rfindSub at h
    split at h
    · rename_i j heq
      cases h
      obtain ⟨h1, h2⟩ := ih heq
      refine ⟨by simpa [occursAt] using h1, ?_⟩
      intro k hk
      cases k with
      | zero => omega
      | succ k =>
        have := h2 k (by omega)
        simpa [occursAt] using this
    · rename_i heq
      split at h
      · cases h
        refine ⟨by simpa [occursAt] using by assumption, ?_⟩
        intro k hk
        cases k with
        | zero => omega
        | succ k => simpa [occursAt] using rfindSub_eq_none heq k
      · cases h

/-- The accumulating loop is exactly a per-record sweep: its records are the
successes and its diagnostics the failures of `parseRecord`, one per chunk,
in chunk order. -/
theorem readLoop_eq (i : Nat) (cs : List (List Char)) :
    readLoop i cs =
      ((List.enumFrom i cs).filterMap fun p => okOf (parseRecord p.1 p.2),
       (List.enumFrom i cs).filterMap fun p => diagOf (parseRecord p.1 p.2)) := by
  induction cs generalizing i with
  | nil => rfl
  | cons c cs ih =>
    simp only [readLoop, List.enumFrom, List.filterMap_cons, ih i.succ]
    cases h : parseRecord i c <;> simp [diagOf, okOf, h]

/-- All-whitespace text contains no record terminator: the terminator
includes a dot and a dot is not whitespace. -/
theorem rfindSub_termSep_of_whitespace {source : List Char}
    (hw : source.all isRustWhitespace = true) :
    rfindSub termSep source = none := by
  cases h : rfindSub termSep source with
  | none => rfl
  | some i =>
    exfalso
    have h1 := (rfindSub_eq_some (by decide) h).1
    have hdot : '.' ∈ source.drop i :=
      leadsWith_mem (by simpa [occursAt] using h1) '.' (by decide)
    have hmem : '.' ∈ source := List.drop_subset i source hdot
    have := List.all_eq_true.mp hw '.' hmem
    simp [isRustWhitespace] at this

/-- Trimming all-whitespace text leaves nothing. -/
theorem trimList_eq_nil_of_whitespace {s : List Char}
    (hw : s.all isRustWhitespace = true) :
    trimList s = [] := by
  have h1 : s.dropWhile isRustWhitespace = [] :=
    List.dropWhile_eq_nil_iff.mpr (by simpa using List.all_eq_true.mp hw)
  simp [trimList, h1]

/-- Splitting the empty text yields no chunks (the lone empty chunk of
`split` is the trailing one, which `split_terminator` drops). -/
theorem splitTerminatorDots_nil : splitTerminatorDots [] = [] := rfl

/-- When all three pre-fixture inputs succeed, the entry point emits the item
followed by the output of the build continuation. -/
theorem tests_eq_ok {σ α β γ : Type} (item : List σ)
    {attrArgs : Except (List σ) α} {itemFn : Except (List σ) β}
    {manifestDir : Except (List σ) γ} (build : α → β → γ → List σ)
    {a : α} {f : β} {m : γ} (ha : attrArgs = .ok a) (hf : itemFn = .ok f)
    (hm : manifestDir = .ok m) :
    tests item attrArgs itemFn manifestDir build = item ++ build a f m := by
  subst ha hf hm
  rfl

/-- When at least one pre-fixture input fails, the entry point emits the item
followed by the error streams of exactly the failing inputs, in the fixed
tuple order, and never consults the build continuation. -/
theorem tests_eq_err {σ α β γ : Type} (item : List σ)
    {attrArgs : Except (List σ) α} {itemFn : Except (List σ) β}
    {manifestDir : Except (List σ) γ} (build : α → β → γ → List σ)
    (h : (∃ ea, attrArgs = .error ea) ∨ (∃ eb, itemFn = .error eb) ∨
         (∃ ec, manifestDir = .error ec)) :
    tests item attrArgs itemFn manifestDir build =
      item ++ (errPart attrArgs ++ errPart itemFn ++ errPart manifestDir) := by
  cases attrArgs with
  | ok a =>
    cases itemFn with
    | ok f =>
      cases manifestDir with
      | ok m =>
        exfalso
        rcases h with ⟨e, he⟩ | ⟨e, he⟩ | ⟨e, he⟩ <;> cases he
      | error c => simp [tests, errPart]
    | error b => cases manifestDir <;> simp [tests, errPart]
  | error a => cases itemFn <;> cases manifestDir <;> simp [tests, errPart]

/-- Claim C2: for every input — any combination of success or failure of the
environment lookup, configuration parsing, signature analysis, and (through
the build continuation) fixture parsing — the token stream of the annotated
item is included unchanged at the start of the output of the entry point. -/
theorem annotated_item_reemitted_first {σ α β γ : Type} (item : List σ)
    (attrArgs : Except (List σ) α) (itemFn : Except (List σ) β)
    (manifestDir : Except (List σ) γ) (build : α → β → γ → List σ) :
    ∃ rest, tests item attrArgs itemFn manifestDir build = item ++ rest := by
  cases attrArgs <;> cases itemFn <;> cases manifestDir <;> exact ⟨_, rfl⟩

/-- Claim C3: the three pre-fixture checks are evaluated independently; for
every combination of failures, the diagnostic stream of each failing check
appears in the output (all simultaneously), the output does not depend on
the build continuation (so fixture parsing is not attempted), and only when
all three succeed is the build continuation — the fixture-parsing path —
invoked. -/
theorem prefixture_errors_all_reported {σ α β γ : Type} (item : List σ)
    (attrArgs : Except (List σ) α) (itemFn : Except (List σ) β)
    (manifestDir : Except (List σ) γ) (build build' : α → β → γ → List σ) :
    (∀ ea, attrArgs = .error ea →
       ∃ pre post, tests item attrArgs itemFn manifestDir build = pre ++ ea ++ post) ∧
    (∀ eb, itemFn = .error eb →
       ∃ pre post, tests item attrArgs itemFn manifestDir build = pre ++ eb ++ post) ∧
    (∀ ec, manifestDir = .error ec →
       ∃ pre post, tests item attrArgs itemFn manifestDir build = pre ++ ec ++ post) ∧
    (((∃ ea, attrArgs = .error ea) ∨ (∃ eb, itemFn = .error eb) ∨
        (∃ ec, manifestDir = .error ec)) →
       tests item attrArgs itemFn manifestDir build =
         tests item attrArgs itemFn manifestDir build') ∧
    (∀ a f m, attrArgs = .ok a → itemFn = .ok f → manifestDir = .ok m →
       tests item attrArgs itemFn manifestDir build = item ++ build a f m) := by
  refine ⟨?_, ?_, ?_, ?_, ?_⟩
  · intro ea hea
    refine ⟨item, errPart itemFn ++ errPart manifestDir, ?_⟩
    rw [tests_eq_err item build (Or.inl ⟨ea, hea⟩), hea]
    simp [errPart]
  · intro eb heb
    refine ⟨item ++ errPart attrArgs, errPart manifestDir, ?_⟩
    rw [tests_eq_err item build (Or.inr (Or.inl ⟨eb, heb⟩)), heb]
    simp [errPart]
  · intro ec hec
    refine ⟨item ++ errPart attrArgs ++ errPart itemFn, [], ?_⟩
    rw [tests_eq_err item build (Or.inr (Or.inr ⟨ec, hec⟩)), hec]
    simp [errPart]
  · intro h
    rw [tests_eq_err item build h, tests_eq_err item build' h]
  · intro a f m ha hf hm
    exact tests_eq_ok item build ha hf hm

/-- Claim C3, instantiated: with the configuration and the environment lookup
both failing and the signature analysis succeeding, both diagnostics appear
in the output and the output ignores the build continuation. -/
theorem prefixture_errors_all_reported_witness :
    tests [0] (Except.error [1] : Except (List Nat) Unit)
      (Except.ok () : Except (List Nat) Unit)
      (Except.error [3] : Except (List Nat) Unit)
      (fun _ _ _ => [7]) = [0, 1, 3] ∧
    tests [0] (Except.error [1] : Except (List Nat) Unit)
      (Except.ok () : Except (List Nat) Unit)
      (Except.error [3] : Except (List Nat) Unit) (fun _ _ _ => [7]) =
      tests [0] (Except.error [1] : Except (List Nat) Unit)
        (Except.ok () : Except (List Nat) Unit)
        (Except.error [3] : Except (List Nat) Unit) (fun _ _ _ => [8]) := by
  have h := prefixture_errors_all_reported [0]
    (Except.error [1] : Except (List Nat) Unit)
    (Except.ok () : Except (List Nat) Unit)
    (Except.error [3] : Except (List Nat) Unit)
    (fun _ _ _ => [7]) (fun _ _ _ => [8])
  exact ⟨rfl, h.2.2.2.1 (Or.inl ⟨[1], rfl⟩)⟩

/-- Claim C1: the test generated for a record passes exactly when the
serialization of the transformation applied to the input of the record
equals the serialization of the deserialization of the expected-output text,
and every failure of serialize or deserialize is propagated as a run-time
failure of that single test. -/
theorem generated_test_passes_iff_normalized {α E : Type}
    (ser : α → Except E (List Char)) (de : List Char → Except E α)
    (tf : List Char → α) (t : Test) :
    (runRecordTest ser de tf t = .success ↔
       ∃ s, ser (tf t.input) = .ok s ∧
         ∃ v, de t.output = .ok v ∧ ser v = .ok s) ∧
    (∀ e, ser (tf t.input) = .error e → runRecordTest ser de tf t = .failure e) ∧
    (∀ e a, ser (tf t.input) = .ok a → de t.output = .error e →
       runRecordTest ser de tf t = .failure e) ∧
    (∀ e a v, ser (tf t.input) = .ok a → de t.output = .ok v → ser v = .error e →
       runRecordTest ser de tf t = .failure e) := by
  unfold runRecordTest testingFn
  rcases h1 : ser (tf t.input) with e1 | a1
  · simp [h1]
  · rcases h2 : de t.output with e2 | v2
    · simp [h1, h2]
    · rcases h3 : ser v2 with e3 | b
      · simp [h1, h2, h3]
      · simp only [h1, h2, h3]
        refine ⟨⟨?_, ?_⟩, ?_, ?_, ?_⟩
        · intro hs
          by_cases hab : a1 = b
          · exact ⟨a1, rfl, v2, rfl, by rw [h3, hab]⟩
          · simp [hab] at hs
        · rintro ⟨s, hs, v, hv, hsv⟩
          cases hs
          cases hv
          rw [h3] at hsv
          cases hsv
          simp
        · intro e he
          cases he
        · intro e a ha he
          cases he
        · intro e a v ha hv hsv
          cases hv
          rw [h3] at hsv
          cases hsv

/-- Claim C1, instantiated: with textual serialize and deserialize and the
identity transformation, the test for a record whose input and expected
output coincide passes. -/
theorem generated_test_passes_iff_normalized_witness :
    runRecordTest (fun l : List Char => (Except.ok l : Except Unit (List Char)))
      (fun l : List Char => (Except.ok l : Except Unit (List Char)))
      (fun l => l) ⟨'_' :: "x".data, "hi".data, "hi".data⟩ = .success := by
  have h := generated_test_passes_iff_normalized
    (fun l : List Char => (Except.ok l : Except Unit (List Char)))
    (fun l : List Char => (Except.ok l : Except Unit (List Char)))
    (fun l => l) ⟨'_' :: "x".data, "hi".data, "hi".data⟩
  exact h.1.mpr ⟨"hi".data, rfl, "hi".data, rfl, rfl⟩

/-- Claim C9: an emitted test never yields a bare pass/fail signal — its
outcome is success, a propagated error value, or a mismatch carrying both
(necessarily different) canonical strings; and when both canonical
serialized strings are computed, the outcome is success exactly on equality
and otherwise a failure carrying both strings. -/
theorem emitted_test_outcome_descriptive {α E : Type}
    (ser : α → Except E (List Char)) (de : List Char → Except E α)
    (tf : List Char → α) (expected actual : List Char) :
    (testingFn ser de tf expected actual = .success ∨
     (∃ e, testingFn ser de tf expected actual = .failure e) ∨
     (∃ x y, testingFn ser de tf expected actual = .mismatch x y ∧ x ≠ y)) ∧
    (∀ a v b, ser (tf actual) = .ok a → de expected = .ok v → ser v = .ok b →
       testingFn ser de tf expected actual =
         if a = b then .success else .mismatch a b) := by
  unfold testingFn
  rcases h1 : ser (tf actual) with e1 | a1
  · simp [h1]
  · rcases h2 : de expected with e2 | v2
    · simp [h1, h2]
    · rcases h3 : ser v2 with e3 | b
      · simp only [h1, h2, h3]
        refine ⟨Or.inr (Or.inl ⟨e3, rfl⟩), ?_⟩
        intro a v b ha hv hb
        cases ha
        cases hv
        rw [h3] at hb
        cases hb
      · simp only [h1, h2, h3]
        constructor
        · by_cases hab : a1 = b
          · left
            simp [hab]
          · right; right
            exact ⟨a1, b, by simp [hab], hab⟩
        · intro a v b' ha hv hb
          cases ha
          cases hv
          rw [h3] at hb
          cases hb
          rfl

/-- Claim C9, instantiated: with textual serialize and deserialize and the
identity transformation, differing canonical strings produce a mismatch
carrying both of them. -/
theorem emitted_test_outcome_descriptive_witness :
    testingFn (fun l : List Char => (Except.ok l : Except Unit (List Char)))
      (fun l : List Char => (Except.ok l : Except Unit (List Char)))
      (fun l => l) "2".data "1".data = .mismatch "1".data "2".data := by
  have h := (emitted_test_outcome_descriptive
    (fun l : List Char => (Except.ok l : Except Unit (List Char)))
    (fun l : List Char => (Except.ok l : Except Unit (List Char)))
    (fun l => l) "2".data "1".data).2 "1".data "2".data "2".data rfl rfl rfl
  exact h.trans (if_neg (by decide))

/-- Claim C4: on a structurally acceptable fixture text the parser sweeps
every record, collecting one diagnostic per malformed record; the result is
all-or-nothing — all successfully parsed records when no diagnostic
occurred, and the full, non-empty diagnostic list (with no records)
otherwise. -/
theorem read_tests_exhaustive_all_or_nothing (source : List Char)
    (h1 : source.getLast? = some '\n')
    (h2 : (trimList (source.drop (splitPosOf source))).isEmpty = true) :
    ((List.enumFrom 0 (recordsOf source)).filterMap
        (fun p => diagOf (parseRecord p.1 p.2)) = [] →
      read_tests source =
        .ok ((List.enumFrom 0 (recordsOf source)).filterMap
          fun p => okOf (parseRecord p.1 p.2))) ∧
    (∀ e es, (List.enumFrom 0 (recordsOf source)).filterMap
        (fun p => diagOf (parseRecord p.1 p.2)) = e :: es →
      read_tests source = .error (e :: es)) := by
  have hr := readLoop_eq 0 (recordsOf source)
  constructor
  · intro hd
    simp [read_tests, h1, h2, hr, hd]
  · intro e es hd
    simp [read_tests, h1, h2, hr, hd]

/-- Claim C4, instantiated: a fixture with two malformed records (both
missing the name separator) yields both diagnostics and no records. -/
theorem read_tests_exhaustive_all_or_nothing_witness :
    read_tests "x\n...\ny\n...\n".data = .error [.noNameSep 0, .noNameSep 1] := by
  have h := read_tests_exhaustive_all_or_nothing "x\n...\ny\n...\n".data rfl rfl
  exact h.2 (.noNameSep 0) [.noNameSep 1] rfl

/-- Claim C5: within a record, the name split is at the first occurrence of
the standalone name separator and the input/output split is at the last
occurrence of the standalone input/output separator in the remainder: the
indices returned by the two searches are occurrences, nothing earlier
matches the name separator and nothing later matches the input/output
separator, and the record parses with the text before the last occurrence as
input and the text after it as output. -/
theorem name_split_first_io_split_last (i : Nat) (test : List Char)
    (ix jx : Nat) (hfind : findSub nameSep test = some ix)
    (hrfind : rfindSub ioSep (test.drop (ix + 5)) = some jx) :
    (occursAt nameSep test ix = true ∧
       ∀ k, k < ix → occursAt nameSep test k = false) ∧
    (occursAt ioSep (test.drop (ix + 5)) jx = true ∧
       ∀ k, jx < k → occursAt ioSep (test.drop (ix + 5)) k = false) ∧
    parseRecord i test =
      (if validTestName (sanitizeName (test.take ix)) then
         .ok ⟨'_' :: sanitizeName (test.take ix),
              trimList ((test.drop (ix + 5)).take jx),
              trimList ((test.drop (ix + 5)).drop (jx + 5))⟩
       else .error (.invalidIdentifier (sanitizeName (test.take ix)))) := by
  refine ⟨findSub_eq_some hfind, rfindSub_eq_some (by decide) hrfind, ?_⟩
  simp [parseRecord, hfind, hrfind]

/-- Claim C5, instantiated: a record whose input contains an earlier
standalone input/output separator line still splits at the later one — the
earlier separator position is a genuine occurrence, yet it ends up inside
the input. -/
theorem name_split_first_io_split_last_witness :
    parseRecord 0 "a\n===\nx\n---\ny\n---\nz".data =
      .ok ⟨'_' :: "a".data, "x\n---\ny".data, "z".data⟩ ∧
    occursAt ioSep ("a\n===\nx\n---\ny\n---\nz".data.drop 6) 1 = true := by
  have h := name_split_first_io_split_last 0 "a\n===\nx\n---\ny\n---\nz".data
    1 7 rfl rfl
  exact ⟨h.2.2.trans rfl, rfl⟩

/-- Claim C6: a well-formed fixture file with N records generates exactly N
tests, in file order, and each test is named by concatenating the base name
of the fixture file (dots replaced by underscores) with the sanitized record
name (which carries its leading-underscore prefix), so the name is a
function of the (file base name, record name) pair alone. -/
theorem build_tests_one_per_record_named (stem source : List Char)
    (ts : List Test) (h : read_tests source = .ok ts) :
    build_tests stem source =
      .ok ⟨replaceDotUnderscore stem,
           ts.map fun t => ⟨replaceDotUnderscore stem ++ t.name, t.output, t.input⟩⟩ ∧
    (ts.map fun t : Test =>
        (⟨replaceDotUnderscore stem ++ t.name, t.output, t.input⟩ :
          GeneratedTest)).length = ts.length := by
  exact ⟨by simp [build_tests, h], by simp⟩

/-- Claim C6, instantiated: a fixture file base name `cases.v1` and one
record named `a b` produce exactly one test named `cases_v1_a_b`. -/
theorem build_tests_one_per_record_named_witness :
    build_tests "cases.v1".data "a b\n===\n1\n---\n2\n...\n".data =
      .ok ⟨"cases_v1".data, [⟨"cases_v1_a_b".data, "2".data, "1".data⟩]⟩ := by
  have h := build_tests_one_per_record_named "cases.v1".data
    "a b\n===\n1\n---\n2\n...\n".data [⟨'_' :: "a_b".data, "1".data, "2".data⟩] rfl
  exact h.1.trans rfl

/-- Claim C7: the parser rejects with a format diagnostic every text not
ending in a newline and every text with non-whitespace content after the
last record terminator; with no terminator at all the split position is
treated as zero, the whole file falls under the trailing-content rule, and
the split step finds zero entries. -/
theorem read_tests_structural_rejections (source : List Char) :
    (source.getLast? ≠ some '\n' →
       read_tests source = .error [.noTrailingNewline]) ∧
    (source.getLast? = some '\n' →
       (trimList (source.drop (splitPosOf source))).isEmpty = false →
       read_tests source = .error [.trailingContent]) ∧
    (rfindSub termSep source = none →
       splitPosOf source = 0 ∧ recordsOf source = [] ∧
       (source.getLast? = some '\n' → (trimList source).isEmpty = true →
          read_tests source = .ok [])) := by
  refine ⟨fun h => ?_, fun h1 h2 => ?_, fun hn => ?_⟩
  · simp [read_tests, h]
  · simp [read_tests, h1, h2]
  · have hp : splitPosOf source = 0 := by simp [splitPosOf, hn]
    have hrec : recordsOf source = [] := by
      simp [recordsOf, hp, splitTerminatorDots_nil]
    refine ⟨hp, hrec, fun h1 h2 => ?_⟩
    simp [read_tests, h1, hp, h2, hrec, readLoop]

/-- Claim C7, instantiated: a text without a trailing newline is rejected, a
text with content after the final terminator is rejected, and a
terminator-free whitespace file yields zero entries. -/
theorem read_tests_structural_rejections_witness :
    read_tests "abc".data = .error [.noTrailingNewline] ∧
    read_tests "x\n...\nz\n".data = .error [.trailingContent] ∧
    read_tests " \n".data = .ok [] := by
  refine ⟨(read_tests_structural_rejections "abc".data).1 (by decide),
    (read_tests_structural_rejections "x\n...\nz\n".data).2.1 rfl rfl,
    ((read_tests_structural_rejections " \n".data).2.2 rfl).2.2 rfl rfl⟩

/-- Claim C8: the test name of a record is the raw name trimmed of
surrounding whitespace with internal spaces replaced by underscores, then
prefixed with an underscore and validated as an identifier; validation
failure records an identifier diagnostic naming the sanitized string, and
the loop continues with the next record. -/
theorem record_name_sanitized_validated (i : Nat) (test : List Char)
    (ix jx : Nat) (cs : List (List Char))
    (hfind : findSub nameSep test = some ix)
    (hrfind : rfindSub ioSep (test.drop (ix + 5)) = some jx) :
    (validTestName (sanitizeName (test.take ix)) = true →
       parseRecord i test =
         .ok ⟨'_' :: sanitizeName (test.take ix),
              trimList ((test.drop (ix + 5)).take jx),
              trimList ((test.drop (ix + 5)).drop (jx + 5))⟩) ∧
    (validTestName (sanitizeName (test.take ix)) = false →
       parseRecord i test =
         .error (.invalidIdentifier (sanitizeName (test.take ix))) ∧
       readLoop i (test :: cs) =
         ((readLoop (i + 1) cs).1,
          .invalidIdentifier (sanitizeName (test.take ix)) ::
            (readLoop (i + 1) cs).2)) := by
  constructor
  · intro hv
    simp [parseRecord, hfind, hrfind, hv]
  · intro hv
    have hp : parseRecord i test =
        .error (.invalidIdentifier (sanitizeName (test.take ix))) := by
      simp [parseRecord, hfind, hrfind, hv]
    exact ⟨hp, by simp [readLoop, hp]⟩

/-- Claim C8, instantiated: the raw name `a-b` sanitizes to `a-b`, fails
identifier validation, produces an identifier diagnostic naming it, and the
loop still runs (here on an empty tail). -/
theorem record_name_sanitized_validated_witness :
    parseRecord 0 "a-b\n===\n1\n---\n2".data =
      .error (.invalidIdentifier "a-b".data) ∧
    readLoop 0 ["a-b\n===\n1\n---\n2".data] =
      ([], [.invalidIdentifier "a-b".data]) := by
  have h := record_name_sanitized_validated 0 "a-b\n===\n1\n---\n2".data
    3 1 [] rfl rfl
  have h2 := h.2 rfl
  exact ⟨h2.1.trans rfl, h2.2.trans rfl⟩

/-- Claim C10: a fixture text that ends with a newline and consists entirely
of whitespace — in particular one with no record terminator at all — parses
successfully to the empty record list, so no diagnostic is emitted and zero
tests are generated, while the shared helper is still produced. -/
theorem whitespace_only_fixture_yields_no_tests (stem source : List Char)
    (h1 : source.getLast? = some '\n')
    (hw : source.all isRustWhitespace = true) :
    read_tests source = .ok [] ∧
    build_tests stem source = .ok ⟨replaceDotUnderscore stem, []⟩ := by
  have hn : rfindSub termSep source = none := rfindSub_termSep_of_whitespace hw
  have hp : splitPosOf source = 0 := by simp [splitPosOf, hn]
  have ht : trimList source = [] := trimList_eq_nil_of_whitespace hw
  have hr : read_tests source = .ok [] := by
    simp [read_tests, h1, hp, ht, recordsOf, splitTerminatorDots_nil, readLoop]
  exact ⟨hr, by simp [build_tests, hr]⟩

/-- Claim C10, instantiated: the file containing a single newline yields no
tests, no diagnostics, and the helper named after the fixture file. -/
theorem whitespace_only_fixture_yields_no_tests_witness :
    read_tests "\n".data = .ok [] ∧
    build_tests "cases".data "\n".data = .ok ⟨"cases".data, []⟩ := by
  have h := whitespace_only_fixture_yields_no_tests "cases".data "\n".data
    rfl (by decide)
  exact ⟨h.1, h.2.trans rfl⟩

end Conformance
